import Mathlib

/-!
Verification of the AvMonitor synchronization engine
(`plugins.v2/avmonitor/__init__.py`).

The engine is shallowly embedded: directory listings become lists of named
entries, the destination folder and the dedup cache become lists of strings,
and each event handler becomes a pure function from that state to the new
state.  The hardlink primitive `SystemUtils.link` is abstracted by a boolean
environment `ok : String → Bool` giving, per file name, whether the link
call reports status 0; a failed link is assumed to create nothing.

Python library behaviour that the code relies on is modelled explicitly:
`str.lower`, `str.endswith`, `str.split`, `pathlib.PurePath.name` /
`.parent.name` / `.stem`, and POSIX `pathlib.Path.glob` (case-sensitive
pattern matching, entries yielded in directory-listing order, which is the
order of the input list here).
-/

set_option autoImplicit false

/-- Membership test on a list of names, modelling Python `in` on a
set / list and `Path.exists()` against a directory listing. -/
def hasName (l : List String) (n : String) : Bool :=
  l.any (fun m => m == n)

/-- Split a character list at every occurrence of `c`, keeping empty
pieces, exactly as `str.split(c)` does.  `acc` holds the characters of the
current piece in reverse. -/
def splitOnCharAux (c : Char) (acc : List Char) : List Char → List (List Char)
  | [] => [acc.reverse]
  | x :: xs =>
    if x = c then acc.reverse :: splitOnCharAux c [] xs
    else splitOnCharAux c (x :: acc) xs

/-- Lower-cased string, modelling `str.lower()` (character-wise, ASCII). -/
def lowerStr (s : String) : String :=
  String.mk (s.toList.map Char.toLower)

/-- Suffix test, modelling `str.endswith(t)` and the `*<suffix>` glob
patterns the code uses. -/
def strEndsWith (s t : String) : Bool :=
  t.toList.isSuffixOf s.toList

/-- Components of a POSIX path string: split on `/` and drop empty
segments, as `pathlib` does when parsing a path. -/
def pathSegs (p : String) : List String :=
  ((splitOnCharAux '/' [] p.toList).map (fun l => String.mk l)).filter
    (fun s => !(s == ""))

/-- Final path component, modelling `pathlib.Path(p).name`. -/
def pathName (p : String) : String :=
  (pathSegs p).getLastD ""

/-- Name of the parent directory, modelling `pathlib.Path(p).parent.name`. -/
def parentName (p : String) : String :=
  ((pathSegs p).dropLast).getLastD ""

/-- Index of the last occurrence of `'.'` in a character list,
modelling `str.rfind` for the dot. -/
def rfindDot : List Char → Option Nat
  | [] => none
  | c :: cs =>
    match rfindDot cs with
    | some i => some (i + 1)
    | none => if c = '.' then some 0 else none

/-- Base name without the final extension, modelling `pathlib.PurePath.stem`:
the suffix starts at the last dot, provided that dot is neither the first
nor the last character of the name. -/
def stem (s : String) : String :=
  let cs := s.toList
  match rfindDot cs with
  | some i => if 0 < i ∧ i < cs.length - 1 then String.mk (cs.take i) else s
  | none => s

/-- Lower-cased stem of a file name, as compared by
`strm_f.stem.lower() == nfo_f.stem.lower()`. -/
def stemLower (s : String) : String :=
  lowerStr (stem s)

/-- Does `sub` occur as a contiguous sublist of `s`? -/
def listContainsSub (sub : List Char) : List Char → Bool
  | [] => sub.isEmpty
  | c :: rest => sub.isPrefixOf (c :: rest) || listContainsSub sub rest

/-- Substring test, modelling Python `sub in s`. -/
def containsSub (s sub : String) : Bool :=
  listContainsSub sub.toList s.toList

/-- Denylist applied to the event path in `__handle_src_file`:
`any(x in event_path for x in ['/@Recycle/', '/#recycle/', '/.', '/@eaDir'])`. -/
def denylisted (p : String) : Bool :=
  ["/@Recycle/", "/#recycle/", "/.", "/@eaDir"].any (fun x => containsSub p x)

/-!
## Classification

`_process_forward_link` classifies a folder name with
`re.match(r'^([a-zA-Z0-9]+(?:-PPV)?)-?(\d+)', av_name, re.I)` and takes
`match.group(1)[0].upper()` when the match succeeds, `"其他"` otherwise.
The matcher below reproduces Python's leftmost greedy backtracking search
for this specific pattern: the `[a-zA-Z0-9]+` run is tried from longest to
shortest, at each length the optional `-PPV` (case-insensitive, from the
`re.I` flag) is preferred over skipping it, then an optional `-` and at
least one digit must follow.
-/

/-- Length of the leading `[a-zA-Z0-9]` run of the name. -/
def alnumRunLen (cs : List Char) : Nat :=
  (cs.takeWhile (fun c => c.isAlphanum)).length

/-- Does `-?(\d+)` match at the front of `cs`?  The greedy optional dash is
taken when present, and then at least one ASCII digit must follow. -/
def dashDigits (cs : List Char) : Bool :=
  match cs with
  | [] => false
  | c :: rest =>
    if c = '-' then
      match rest with
      | d :: _ => d.isDigit
      | [] => false
    else
      c.isDigit

/-- Try to take a literal `-PPV` (case-insensitive) off the front of `cs`,
returning the consumed characters as written plus the remainder. -/
def ppvSplit (cs : List Char) : Option (List Char × List Char) :=
  match cs with
  | a :: b :: c :: d :: rest =>
    if a = '-' ∧ b.toLower = 'p' ∧ c.toLower = 'p' ∧ d.toLower = 'v' then
      some ([a, b, c, d], rest)
    else
      none
  | _ => none

/-- Attempt the pattern with the alphanumeric run fixed to length `k`:
group 1 is the run plus the `-PPV` token when that alternative lets the
tail `-?(\d+)` match, the bare run when the skipped alternative does. -/
def tryRunLen (cs : List Char) (k : Nat) : Option (List Char) :=
  let p := cs.take k
  let rest := cs.drop k
  match ppvSplit rest with
  | some (ppv, rest2) =>
    if dashDigits rest2 then some (p ++ ppv)
    else if dashDigits rest then some p
    else none
  | none =>
    if dashDigits rest then some p else none

/-- Backtracking over the greedy `[a-zA-Z0-9]+`: run lengths are tried from
`k` down to `1`. -/
def searchGroup1 : Nat → List Char → Option (List Char)
  | 0, _ => none
  | k + 1, cs =>
    match tryRunLen cs (k + 1) with
    | some g => some g
    | none => searchGroup1 k cs

/-- Capture group 1 of `re.match(r'^([a-zA-Z0-9]+(?:-PPV)?)-?(\d+)', name, re.I)`,
or `none` when the pattern does not match. -/
def group1 (name : String) : Option (List Char) :=
  searchGroup1 (alnumRunLen name.toList) name.toList

/-- Classification key of a folder name:
`match.group(1)[0].upper() if match else "其他"`. -/
def classify (name : String) : String :=
  match group1 name with
  | some (c :: _) => String.singleton c.toUpper
  | _ => "其他"

/-!
## Source-side readiness (`__handle_src_file`)

A directory listing is a list of `Entry` in the order the operating system
yields them (`Path.iterdir` / `Path.glob` make no ordering guarantee).
-/

/-- One child of a directory, as seen by `iterdir` / `glob`. -/
structure Entry where
  name : String
  isDir : Bool
  deriving DecidableEq, Repr

/-- Lower-cased names of the regular files of the listing:
`files = [f.name.lower() for f in av_folder.iterdir() if f.is_file()]`. -/
def lowerFileNames (folder : List Entry) : List String :=
  (folder.filter (fun e => !e.isDir)).map (fun e => lowerStr e.name)

/-- Python `has_strm = any(f.endswith('.strm') for f in files)`. -/
def hasStrm (folder : List Entry) : Bool :=
  (lowerFileNames folder).any (fun f => strEndsWith f ".strm")

/-- Python `has_nfo = any(f.endswith('.nfo') for f in files)`. -/
def hasNfo (folder : List Entry) : Bool :=
  (lowerFileNames folder).any (fun f => strEndsWith f ".nfo")

/-- Python `has_imgs = all(img in files for img in ['poster.jpg', 'fanart.jpg', 'thumb.jpg'])`. -/
def hasImgs (folder : List Entry) : Bool :=
  (["poster.jpg", "fanart.jpg", "thumb.jpg"].all
    (fun img => hasName (lowerFileNames folder) img))

/-- The five-file requirement `has_strm and has_nfo and has_imgs`. -/
def fiveCheck (folder : List Entry) : Bool :=
  hasStrm folder && hasNfo folder && hasImgs folder

/-- First entry produced by the POSIX `Path.glob` pattern for one
extension: matching is case-sensitive, and `next` takes the first entry in
directory-listing order (`*` imposes no constraint beyond the suffix and
matches directories as well). -/
def globFirst (folder : List Entry) (suffix : String) : Option Entry :=
  (folder.filter (fun e => strEndsWith e.name suffix)).head?

/-- Does `__handle_src_file` reach the call to `_process_forward_link`?
The five-file check must pass, `next(av_folder.glob('*.strm'))` and
`next(av_folder.glob('*.nfo'))` must both yield an entry (a `StopIteration`
is swallowed by the surrounding `except Exception: pass`), and the two
stems must agree case-insensitively. -/
def srcReady (folder : List Entry) : Bool :=
  fiveCheck folder &&
    (match globFirst folder ".strm", globFirst folder ".nfo" with
     | some s, some n => stemLower s.name == stemLower n.name
     | _, _ => false)

/-!
## Link Materializer (`_process_forward_link`)

The relevant destination title folder
(`target_base / first_char / av_name`) is represented by the list of entry
names it already holds; `ok name` tells whether `SystemUtils.link` returns
status 0 for the file of that name.
-/

/-- Destination folder path string computed by `_process_forward_link`. -/
def destFolderPath (targetBase avName : String) : String :=
  targetBase ++ "/" ++ classify avName ++ "/" ++ avName

/-- One iteration of the loop `for item in av_folder.glob('*')`: directories
are skipped, an existing destination entry is left alone, a missing one is
linked, and a failed link clears the success flag. -/
def stepLink (ok : String → Bool) (st : List String × Bool) (e : Entry) :
    List String × Bool :=
  if e.isDir then st
  else if hasName st.1 e.name then st
  else if ok e.name then (st.1 ++ [e.name], st.2)
  else (st.1, false)

/-- The body of `_process_forward_link` after the `mkdir`: fold the link
loop over the source listing, starting from the current destination
contents with `success = True`. -/
def processForwardLink (ok : String → Bool) (folder : List Entry)
    (dest : List String) : List String × Bool :=
  folder.foldl (stepLink ok) (dest, true)

/-- Full `__handle_src_file` state transition.  `eventPath` is the path of
the triggering file, `folderPath` is `str(av_folder)` (its parent folder),
`folderExists` is `av_folder.exists()`, `folder` the listing of that
folder, `dest` the contents of the destination title folder and `cache`
the dedup set `_synced_folders` (modelled as a duplicate-free list).
Returns the new `(dest, cache)`. -/
def handleSrcFile (ok : String → Bool) (eventPath folderPath : String)
    (folderExists : Bool) (folder : List Entry) (dest : List String)
    (cache : List String) : List String × List String :=
  if hasName cache folderPath then (dest, cache)
  else if denylisted eventPath then (dest, cache)
  else if !folderExists then (dest, cache)
  else if srcReady folder then
    let r := processForwardLink ok folder dest
    (r.1, if r.2 then cache ++ [folderPath] else cache)
  else (dest, cache)

/-!
## Spec-side readiness variants (for refinement comparison only)

These two definitions follow the words of the specification, not the code;
they exist to be compared against `srcReady`.
-/

/-- Lexicographic strict order on character lists. -/
def charListLtB : List Char → List Char → Bool
  | [], [] => false
  | [], _ :: _ => true
  | _ :: _, [] => false
  | a :: as, b :: bs =>
    if a < b then true else if b < a then false else charListLtB as bs

/-- Lexicographic strict order on strings. -/
def strLtB (a b : String) : Bool :=
  charListLtB a.toList b.toList

/-- Lexicographically least element of a list of names. -/
def lexLeast (names : List String) : Option String :=
  names.foldl
    (fun acc n =>
      match acc with
      | none => some n
      | some m => if strLtB n m then some n else some m)
    none

/-- Lexicographically first name of the listing with the given suffix —
the selection rule the specification describes. -/
def lexFirstMatch (folder : List Entry) (suffix : String) : Option String :=
  lexLeast ((folder.filter (fun e => strEndsWith e.name suffix)).map
    (fun e => e.name))

/-- Readiness as the specification words it for claim C3: the five-file
requirement plus a case-insensitive stem match of the lexicographically
first pointer and metadata candidates. -/
def specLexReady (folder : List Entry) : Bool :=
  fiveCheck folder &&
    (match lexFirstMatch folder ".strm", lexFirstMatch folder ".nfo" with
     | some s, some n => stemLower s == stemLower n
     | _, _ => false)

/-- First candidate with the given extension under case-insensitive
matching — the selection rule claim C8 describes ("case-insensitive
comparison throughout"). -/
def insensFirst (folder : List Entry) (suffix : String) : Option Entry :=
  (folder.filter (fun e => strEndsWith (lowerStr e.name) suffix)).head?

/-- Readiness as claim C8 words it: every name comparison, including the
pointer/metadata candidate selection, is case-insensitive. -/
def specInsensReady (folder : List Entry) : Bool :=
  fiveCheck folder &&
    (match insensFirst folder ".strm", insensFirst folder ".nfo" with
     | some s, some n => stemLower s.name == stemLower n.name
     | _, _ => false)

/-!
## Back-link Reconciler (`__handle_dest_file`)

The mapped-back source root is a list of collection-level children; the
code only descends into those that are directories.  Each title is a child
of a collection together with the names of the files inside it.  The
back-link `SystemUtils.link` result is ignored by the code; linking is
modelled as creating the file.
-/

/-- A title folder inside a collection directory. -/
structure Title where
  name : String
  files : List String
  deriving DecidableEq, Repr

/-- A collection-level child of the source root (`src_base.iterdir()`);
only directories are scanned. -/
structure Collection where
  name : String
  isDir : Bool
  titles : List Title
  deriving DecidableEq, Repr

/-- Inside the matched collection: create `target_path / dest_file.name`
unless `back_link.exists()`. -/
def addFileToTitle (avName fn : String) (ts : List Title) : List Title :=
  ts.map (fun t =>
    if t.name = avName then
      if hasName t.files fn then t else { t with files := t.files ++ [fn] }
    else t)

/-- Does the scan stop at this collection?  It must be a directory
(`d.is_dir()`) and `(actor_dir / av_name).exists()` must hold. -/
def colMatches (avName : String) (c : Collection) : Bool :=
  c.isDir && c.titles.any (fun t => t.name == avName)

/-- The matched collection after the back-link step ran inside it. -/
def colUpdate (avName fn : String) (c : Collection) : Collection :=
  { c with titles := addFileToTitle avName fn c.titles }

/-- The scan `for actor_dir in [d for d in src_base.iterdir() if d.is_dir()]`:
the first directory collection containing a child named `avName` receives
the back-link (conditionally) and the loop returns; everything after it is
untouched. -/
def linkFirstMatch (avName fn : String) : List Collection → List Collection
  | [] => []
  | c :: rest =>
    if colMatches avName c then colUpdate avName fn c :: rest
    else c :: linkFirstMatch avName fn rest

/-- Full `__handle_dest_file` state transition: only paths ending in
`.json` (case-insensitively) are handled, a missing or unmapped source
root (`if src_base and src_base.exists()`) is a no-op, and otherwise the
first matching collection receives the back-link. -/
def handleDestFile (eventPath : String) (srcBaseExists : Bool)
    (cols : List Collection) : List Collection :=
  if !(strEndsWith (lowerStr eventPath) ".json") then cols
  else if !srcBaseExists then cols
  else linkFirstMatch (parentName eventPath) (pathName eventPath) cols

/-!
## Deletion Propagator (`__handle_delete`)

The destination root is a list of top-level children (the classification
buckets); `target_base.iterdir()` yields files as well, which the listing
comprehension filters out.  Each directory child carries the names of its
entries; deleting `sub / p_name` removes that entry whether it is a file
(`unlink`) or a directory (`rmtree`).
-/

/-- A top-level child of the destination root. -/
structure TopEntry where
  name : String
  isDir : Bool
  children : List String
  deriving DecidableEq, Repr

/-- Full `__handle_delete` state transition.  `isSrcRoot` is
`mon_path in self._dirconf`; `rootExists` is `target_base.exists()`.
Returns the new `(destination children, cache)`. -/
def handleDelete (isSrcRoot : Bool) (eventPath : String) (rootExists : Bool)
    (tops : List TopEntry) (cache : List String) :
    List TopEntry × List String :=
  if !isSrcRoot then (tops, cache)
  else
    let cache2 := cache.filter (fun c => !(c == eventPath))
    let tops2 :=
      if rootExists then
        tops.map (fun t =>
          if t.isDir then
            { t with children :=
                t.children.filter (fun c => !(c == pathName eventPath)) }
          else t)
      else tops
    (tops2, cache2)

/-!
## Configuration parsing (`init_plugin`)

Each line of the mapping text is handled by
`if ":" not in mon_path: continue`, `paths = mon_path.split(":")`,
`m_path = paths[0]`, `t_path = Path(paths[1])`.  `str.split` is modelled
character by character.
-/

/-- Python `mon_path.split(":")`. -/
def splitColon (s : String) : List String :=
  (splitOnCharAux ':' [] s.toList).map (fun l => String.mk l)

/-- One mapping-text line of `init_plugin`: `none` when the line is skipped
for missing `:`, otherwise the `(source, destination)` pair taken from the
first two split segments. -/
def parseMappingLine (line : String) : Option (String × String) :=
  if line.toList.any (fun x => x == ':') then
    let parts := splitColon line
    some (parts.getD 0 "", parts.getD 1 "")
  else
    none

/-!
## Lock discipline

The engine's three event handlers are translated into flat sequences of
filesystem / cache steps, each tagged with whether the source places it
inside a `with lock:` block.  `__handle_src_file` wraps everything from the
existence check to the cache insertion in `with lock:`; so does
`__handle_dest_file` from the source-root existence check onwards;
`__handle_delete` contains no lock acquisition at all.
-/

/-- Kinds of steps an event handler performs. -/
inductive EngineOp where
  | listDir
  | checkExists
  | mkdirOp
  | linkOp
  | removeEntry
  | cacheAdd
  | cacheRemove
  deriving DecidableEq, Repr

/-- Does the step mutate the filesystem or the dedup cache? -/
def EngineOp.isMutating : EngineOp → Bool
  | .listDir => false
  | .checkExists => false
  | _ => true

/-- One step of a handler together with the lock context it runs in. -/
structure EngineStep where
  op : EngineOp
  underLock : Bool
  deriving DecidableEq, Repr

/-- Steps of `__handle_src_file` on the path that links a ready folder:
existence check, listing, `mkdir`, the link loop and the cache insertion
all sit inside `with lock:`. -/
def srcFileSteps : List EngineStep :=
  [⟨.checkExists, true⟩, ⟨.listDir, true⟩, ⟨.mkdirOp, true⟩,
   ⟨.linkOp, true⟩, ⟨.cacheAdd, true⟩]

/-- Steps of `__handle_dest_file` on the path that back-links a sidecar:
existence check, the collection scan and the link sit inside `with lock:`. -/
def destFileSteps : List EngineStep :=
  [⟨.checkExists, true⟩, ⟨.listDir, true⟩, ⟨.linkOp, true⟩]

/-- Steps of `__handle_delete`: the cache removal, the existence check, the
bucket scan and the entry removals — the method body contains no
`with lock:` block, so none of them runs under the lock. -/
def deleteSteps : List EngineStep :=
  [⟨.cacheRemove, false⟩, ⟨.checkExists, false⟩, ⟨.listDir, false⟩,
   ⟨.removeEntry, false⟩]

/-- All steps of the three mutating event handlers of the engine. -/
def engineSteps : List EngineStep :=
  srcFileSteps ++ destFileSteps ++ deleteSteps

/-!
## Helper lemmas
-/

theorem hasName_iff (l : List String) (n : String) :
    hasName l n = true ↔ n ∈ l := by
  simp [hasName]

theorem hasName_append_single (l : List String) (x n : String) :
    hasName (l ++ [x]) n = (hasName l n || (x == n)) := by
  simp [hasName, List.any_append]

theorem stepLink_dir (ok : String → Bool) (st : List String × Bool) (e : Entry)
    (hd : e.isDir = true) : stepLink ok st e = st := by
  simp [stepLink, hd]

theorem stepLink_skip (ok : String → Bool) (st : List String × Bool) (e : Entry)
    (hd : e.isDir = false) (hm : hasName st.1 e.name = true) :
    stepLink ok st e = st := by
  simp [stepLink, hd, hm]

theorem stepLink_add (ok : String → Bool) (st : List String × Bool) (e : Entry)
    (hd : e.isDir = false) (hm : hasName st.1 e.name = false)
    (ho : ok e.name = true) : stepLink ok st e = (st.1 ++ [e.name], st.2) := by
  simp [stepLink, hd, hm, ho]

theorem stepLink_fail (ok : String → Bool) (st : List String × Bool) (e : Entry)
    (hd : e.isDir = false) (hm : hasName st.1 e.name = false)
    (ho : ok e.name = false) : stepLink ok st e = (st.1, false) := by
  simp [stepLink, hd, hm, ho]

theorem pfl_mem (ok : String → Bool) (src : List Entry) :
    ∀ (acc : List String) (b : Bool) (n : String),
      n ∈ (List.foldl (stepLink ok) (acc, b) src).1 ↔
        n ∈ acc ∨ ∃ e, e ∈ src ∧ e.isDir = false ∧ ok e.name = true ∧ e.name = n := by
  induction src with
  | nil => intro acc b n; simp
  | cons e rest ih =>
    intro acc b n
    rw [List.foldl_cons]
    cases hd : e.isDir with
    | true =>
      rw [stepLink_dir ok (acc, b) e hd, ih]
      constructor
      · rintro (h | ⟨e2, h2, h3⟩)
        · exact Or.inl h
        · exact Or.inr ⟨e2, List.mem_cons_of_mem _ h2, h3⟩
      · rintro (h | ⟨e2, h2, h3⟩)
        · exact Or.inl h
        · rcases List.mem_cons.mp h2 with rfl | h2
          · simp [hd] at h3
          · exact Or.inr ⟨e2, h2, h3⟩
    | false =>
      cases hm : hasName acc e.name with
      | true =>
        rw [stepLink_skip ok (acc, b) e hd hm, ih]
        constructor
        · rintro (h | ⟨e2, h2, h3⟩)
          · exact Or.inl h
          · exact Or.inr ⟨e2, List.mem_cons_of_mem _ h2, h3⟩
        · rintro (h | ⟨e2, h2, h3⟩)
          · exact Or.inl h
          · rcases List.mem_cons.mp h2 with rfl | h2
            · have hmem := (hasName_iff acc e2.name).mp hm
              rw [h3.2.2] at hmem
              exact Or.inl hmem
            · exact Or.inr ⟨e2, h2, h3⟩
      | false =>
        cases ho : ok e.name with
        | true =>
          rw [stepLink_add ok (acc, b) e hd hm ho, ih]
          constructor
          · rintro (h | ⟨e2, h2, h3⟩)
            · rcases List.mem_append.mp h with h | h
              · exact Or.inl h
              · exact Or.inr ⟨e, List.mem_cons_self _ _, hd, ho,
                  (List.mem_singleton.mp h).symm⟩
            · exact Or.inr ⟨e2, List.mem_cons_of_mem _ h2, h3⟩
          · rintro (h | ⟨e2, h2, h3⟩)
            · exact Or.inl (List.mem_append.mpr (Or.inl h))
            · rcases List.mem_cons.mp h2 with rfl | h2
              · exact Or.inl (List.mem_append.mpr (Or.inr
                  (List.mem_singleton.mpr h3.2.2.symm)))
              · exact Or.inr ⟨e2, h2, h3⟩
        | false =>
          rw [stepLink_fail ok (acc, b) e hd hm ho, ih]
          constructor
          · rintro (h | ⟨e2, h2, h3⟩)
            · exact Or.inl h
            · exact Or.inr ⟨e2, List.mem_cons_of_mem _ h2, h3⟩
          · rintro (h | ⟨e2, h2, h3⟩)
            · exact Or.inl h
            · rcases List.mem_cons.mp h2 with rfl | h2
              · simp [ho] at h3
              · exact Or.inr ⟨e2, h2, h3⟩

theorem all_congr_mem {α : Type} (l : List α) (p q : α → Bool)
    (h : ∀ a, a ∈ l → p a = q a) : l.all p = l.all q := by
  induction l with
  | nil => rfl
  | cons a l ih =>
    rw [List.all_cons, List.all_cons, h a (List.mem_cons_self _ _),
      ih (fun b hb => h b (List.mem_cons_of_mem _ hb))]

theorem all_clause_append (ok : String → Bool) (rest : List Entry)
    (acc : List String) (x : String) (hx : ok x = true) :
    rest.all (fun e => e.isDir || ok e.name || hasName (acc ++ [x]) e.name) =
      rest.all (fun e => e.isDir || ok e.name || hasName acc e.name) := by
  apply all_congr_mem
  intro e _
  rw [hasName_append_single]
  cases hbe : (x == e.name) with
  | false => simp
  | true =>
    have hxe : x = e.name := by simpa using hbe
    rw [← hxe, hx]
    simp

theorem pfl_flag (ok : String → Bool) (src : List Entry) :
    ∀ (acc : List String) (b : Bool),
      (List.foldl (stepLink ok) (acc, b) src).2 =
        (b && src.all (fun e => e.isDir || ok e.name || hasName acc e.name)) := by
  induction src with
  | nil => intro acc b; simp
  | cons e rest ih =>
    intro acc b
    rw [List.foldl_cons, List.all_cons]
    cases hd : e.isDir with
    | true =>
      rw [stepLink_dir ok (acc, b) e hd, ih]
      simp [hd]
    | false =>
      cases hm : hasName acc e.name with
      | true =>
        rw [stepLink_skip ok (acc, b) e hd hm, ih]
        simp [hd, hm]
      | false =>
        cases ho : ok e.name with
        | true =>
          rw [stepLink_add ok (acc, b) e hd hm ho, ih,
            all_clause_append ok rest acc e.name ho]
          simp [hd, ho]
        | false =>
          rw [stepLink_fail ok (acc, b) e hd hm ho, ih]
          simp [hd, hm, ho]

theorem pfl_fst_stable (ok : String → Bool) (src : List Entry) :
    ∀ (acc : List String) (b : Bool),
      (∀ e, e ∈ src → e.isDir = false → ok e.name = true →
        hasName acc e.name = true) →
      (List.foldl (stepLink ok) (acc, b) src).1 = acc := by
  induction src with
  | nil => intro acc b _; rfl
  | cons e rest ih =>
    intro acc b h
    rw [List.foldl_cons]
    cases hd : e.isDir with
    | true =>
      rw [stepLink_dir ok (acc, b) e hd]
      exact ih acc b (fun e2 h2 => h e2 (List.mem_cons_of_mem _ h2))
    | false =>
      cases hm : hasName acc e.name with
      | true =>
        rw [stepLink_skip ok (acc, b) e hd hm]
        exact ih acc b (fun e2 h2 => h e2 (List.mem_cons_of_mem _ h2))
      | false =>
        cases ho : ok e.name with
        | true =>
          exact absurd (h e (List.mem_cons_self _ _) hd ho) (by simp [hm])
        | false =>
          rw [stepLink_fail ok (acc, b) e hd hm ho]
          exact ih acc false (fun e2 h2 => h e2 (List.mem_cons_of_mem _ h2))

theorem pfl_fst_grows (ok : String → Bool) (src : List Entry) :
    ∀ (acc : List String) (b : Bool),
      acc <+: (List.foldl (stepLink ok) (acc, b) src).1 := by
  induction src with
  | nil => intro acc b; exact List.prefix_rfl
  | cons e rest ih =>
    intro acc b
    rw [List.foldl_cons]
    cases hd : e.isDir with
    | true =>
      rw [stepLink_dir ok (acc, b) e hd]; exact ih acc b
    | false =>
      cases hm : hasName acc e.name with
      | true =>
        rw [stepLink_skip ok (acc, b) e hd hm]; exact ih acc b
      | false =>
        cases ho : ok e.name with
        | true =>
          rw [stepLink_add ok (acc, b) e hd hm ho]
          exact (List.prefix_append acc [e.name]).trans (ih (acc ++ [e.name]) b)
        | false =>
          rw [stepLink_fail ok (acc, b) e hd hm ho]; exact ih acc false

theorem pfl_fst_idem (ok : String → Bool) (src : List Entry) (dest : List String) :
    (processForwardLink ok src (processForwardLink ok src dest).1).1 =
      (processForwardLink ok src dest).1 := by
  unfold processForwardLink
  apply pfl_fst_stable
  intro e he hdir hok
  rw [hasName_iff, pfl_mem]
  exact Or.inr ⟨e, he, hdir, hok, rfl⟩

theorem pfl_clause_congr (ok : String → Bool) (src : List Entry)
    (dest : List String) (e : Entry) :
    (e.isDir || ok e.name || hasName (processForwardLink ok src dest).1 e.name) =
      (e.isDir || ok e.name || hasName dest e.name) := by
  cases hd : e.isDir with
  | true => simp
  | false =>
    cases ho : ok e.name with
    | true => simp
    | false =>
      simp only [Bool.false_or]
      rw [Bool.eq_iff_iff, hasName_iff, hasName_iff]
      unfold processForwardLink
      rw [pfl_mem]
      constructor
      · rintro (h | ⟨e2, _, _, hok2, hname2⟩)
        · exact h
        · rw [hname2] at hok2
          exact absurd hok2 (by simp [ho])
      · exact fun h => Or.inl h

theorem pfl_snd_idem (ok : String → Bool) (src : List Entry) (dest : List String) :
    (processForwardLink ok src (processForwardLink ok src dest).1).2 =
      (processForwardLink ok src dest).2 := by
  conv_lhs => unfold processForwardLink
  conv_rhs => unfold processForwardLink
  rw [pfl_flag, pfl_flag]
  congr 1
  apply all_congr_mem
  intro e _
  exact pfl_clause_congr ok src dest e

theorem handleSrcFile_unchanged (ok : String → Bool) (ep fp : String)
    (ex : Bool) (folder : List Entry) (dest cache : List String)
    (h : srcReady folder = false) :
    handleSrcFile ok ep fp ex folder dest cache = (dest, cache) := by
  unfold handleSrcFile
  rw [h]
  simp

/-!
## Claim theorems
-/

/-- Claim C1, counterexample: the spec asserts that the name `"99999"`,
having no alphabetic prefix, gets the fallback bucket; in fact the regex
matches it by backtracking (`[a-zA-Z0-9]+` accepts digits and yields one
digit to `\d+`, so group 1 is `"9999"`), and the key is `"9"`, not
`"其他"`. -/
theorem classify_digits_counterexample :
    classify "99999" = "9" ∧ classify "99999" ≠ "其他" := by
  decide

/-- Claim C1, amended: `"ABC-123"` classifies to `"A"` and
`"FC2-PPV-7654321"` to `"F"`, as the spec states; `"99999"` classifies to
`"9"` rather than the fallback bucket, which is reached only when the
pattern fails altogether, e.g. for a purely alphabetic name. -/
theorem classify_examples :
    classify "ABC-123" = "A" ∧ classify "FC2-PPV-7654321" = "F" ∧
      classify "99999" = "9" ∧ classify "ABC" = "其他" := by
  decide

/-- Claim C2: a title folder missing a pointer (`.strm`) file, a metadata
(`.nfo`) file, or any of the three fixed image names is not ready, and
`__handle_src_file` leaves the destination folder and the dedup cache
untouched for it. -/
theorem missing_file_not_ready (folder : List Entry)
    (h : hasStrm folder = false ∨ hasNfo folder = false ∨
      hasImgs folder = false) :
    srcReady folder = false ∧
      ∀ (ok : String → Bool) (ep fp : String) (ex : Bool)
        (dest cache : List String),
        handleSrcFile ok ep fp ex folder dest cache = (dest, cache) := by
  have h5 : fiveCheck folder = false := by
    rcases h with h | h | h <;> simp [fiveCheck, h]
  have hr : srcReady folder = false := by
    unfold srcReady
    rw [h5]
    simp
  exact ⟨hr, fun ok ep fp ex dest cache =>
    handleSrcFile_unchanged ok ep fp ex folder dest cache hr⟩

/-- Claim C2, witness at the empty listing. -/
theorem missing_file_not_ready_witness :
    srcReady [] = false ∧
      handleSrcFile (fun _ => true) "/src/c/T/a.strm" "/src/c/T" true
        [] [] [] = ([], []) := by
  have h := missing_file_not_ready [] (Or.inl (by decide))
  exact ⟨h.1, h.2 (fun _ => true) "/src/c/T/a.strm" "/src/c/T" true [] []⟩

/-- Claim C3, counterexample: a listing in which the directory order is
not sorted.  The spec-side readiness built on the lexicographically first
`.strm`/`.nfo` candidates declares the folder ready, but the code compares
the first candidates in listing order (`next(av_folder.glob(...))`) —
`b.strm` against `a.nfo` — and rejects it. -/
theorem lex_selection_counterexample :
    specLexReady [⟨"b.strm", false⟩, ⟨"a.strm", false⟩, ⟨"a.nfo", false⟩,
        ⟨"poster.jpg", false⟩, ⟨"fanart.jpg", false⟩,
        ⟨"thumb.jpg", false⟩] = true ∧
      srcReady [⟨"b.strm", false⟩, ⟨"a.strm", false⟩, ⟨"a.nfo", false⟩,
        ⟨"poster.jpg", false⟩, ⟨"fanart.jpg", false⟩,
        ⟨"thumb.jpg", false⟩] = false := by
  decide

/-- Claim C3, amended: when the first `.strm` and `.nfo` candidates in
directory-listing order — the entries `next(av_folder.glob(...))` yields,
which need not be the lexicographically first matches — have stems that
differ case-insensitively, the folder is not ready and `__handle_src_file`
changes nothing. -/
theorem stem_mismatch_not_ready (folder : List Entry) (s n : Entry)
    (hs : globFirst folder ".strm" = some s)
    (hn : globFirst folder ".nfo" = some n)
    (hne : stemLower s.name ≠ stemLower n.name) :
    srcReady folder = false ∧
      ∀ (ok : String → Bool) (ep fp : String) (ex : Bool)
        (dest cache : List String),
        handleSrcFile ok ep fp ex folder dest cache = (dest, cache) := by
  have hb : (stemLower s.name == stemLower n.name) = false := by
    simpa using hne
  have hr : srcReady folder = false := by
    unfold srcReady
    rw [hs, hn]
    simp [hb]
  exact ⟨hr, fun ok ep fp ex dest cache =>
    handleSrcFile_unchanged ok ep fp ex folder dest cache hr⟩

/-- Claim C3, witness: a two-file listing with mismatched stems. -/
theorem stem_mismatch_not_ready_witness :
    srcReady [⟨"b.strm", false⟩, ⟨"a.nfo", false⟩] = false ∧
      handleSrcFile (fun _ => true) "/s/c/T/b.strm" "/s/c/T" true
        [⟨"b.strm", false⟩, ⟨"a.nfo", false⟩] [] [] = ([], []) := by
  have h := stem_mismatch_not_ready [⟨"b.strm", false⟩, ⟨"a.nfo", false⟩]
    ⟨"b.strm", false⟩ ⟨"a.nfo", false⟩ (by decide) (by decide) (by decide)
  exact ⟨h.1, h.2 (fun _ => true) "/s/c/T/b.strm" "/s/c/T" true [] []⟩

/-- Claim C8, counterexample: a folder whose pointer and metadata files
carry upper-case extensions passes the case-insensitive five-file check
(and the claim's fully case-insensitive readiness), yet `glob('*.strm')`
matches case-sensitively, the resulting `StopIteration` is swallowed, and
no forward link is attempted. -/
theorem uppercase_extension_counterexample :
    fiveCheck [⟨"VIDEO.STRM", false⟩, ⟨"VIDEO.NFO", false⟩,
        ⟨"poster.jpg", false⟩, ⟨"fanart.jpg", false⟩,
        ⟨"thumb.jpg", false⟩] = true ∧
      specInsensReady [⟨"VIDEO.STRM", false⟩, ⟨"VIDEO.NFO", false⟩,
        ⟨"poster.jpg", false⟩, ⟨"fanart.jpg", false⟩,
        ⟨"thumb.jpg", false⟩] = true ∧
      srcReady [⟨"VIDEO.STRM", false⟩, ⟨"VIDEO.NFO", false⟩,
        ⟨"poster.jpg", false⟩, ⟨"fanart.jpg", false⟩,
        ⟨"thumb.jpg", false⟩] = false ∧
      handleSrcFile (fun _ => true) "/s/c/T/VIDEO.STRM" "/s/c/T" true
        [⟨"VIDEO.STRM", false⟩, ⟨"VIDEO.NFO", false⟩,
         ⟨"poster.jpg", false⟩, ⟨"fanart.jpg", false⟩,
         ⟨"thumb.jpg", false⟩]
        ["old.jpg"] ["/s/c/U"] = (["old.jpg"], ["/s/c/U"]) := by
  decide

/-- Claim C8, amended: the five-file check and the stem comparison are
case-insensitive, but the pointer/metadata candidates are selected by the
case-sensitive glob patterns `*.strm` / `*.nfo`; when such lower-case
candidates exist, the first ones agree on stems case-insensitively, and
the five-file check passes, the folder is ready and the forward link is
performed. -/
theorem insensitive_check_sensitive_glob (folder : List Entry) (s n : Entry)
    (ok : String → Bool) (ep fp : String) (dest cache : List String)
    (h5 : fiveCheck folder = true)
    (hs : globFirst folder ".strm" = some s)
    (hn : globFirst folder ".nfo" = some n)
    (heq : stemLower s.name = stemLower n.name)
    (hc : hasName cache fp = false)
    (hd : denylisted ep = false) :
    srcReady folder = true ∧
      handleSrcFile ok ep fp true folder dest cache =
        ((processForwardLink ok folder dest).1,
          if (processForwardLink ok folder dest).2 then cache ++ [fp]
          else cache) := by
  have hr : srcReady folder = true := by
    unfold srcReady
    rw [hs, hn, h5]
    simp [heq]
  refine ⟨hr, ?_⟩
  unfold handleSrcFile
  rw [hc, hd, hr]
  simp

/-- Claim C8, witness: the all-lower-case five-file folder. -/
theorem insensitive_check_sensitive_glob_witness :
    srcReady [⟨"video.strm", false⟩, ⟨"video.nfo", false⟩,
        ⟨"poster.jpg", false⟩, ⟨"fanart.jpg", false⟩,
        ⟨"thumb.jpg", false⟩] = true ∧
      handleSrcFile (fun _ => true) "/s/c/T/video.strm" "/s/c/T" true
          [⟨"video.strm", false⟩, ⟨"video.nfo", false⟩,
           ⟨"poster.jpg", false⟩, ⟨"fanart.jpg", false⟩,
           ⟨"thumb.jpg", false⟩] [] [] =
        ((processForwardLink (fun _ => true)
            [⟨"video.strm", false⟩, ⟨"video.nfo", false⟩,
             ⟨"poster.jpg", false⟩, ⟨"fanart.jpg", false⟩,
             ⟨"thumb.jpg", false⟩] []).1,
          if (processForwardLink (fun _ => true)
              [⟨"video.strm", false⟩, ⟨"video.nfo", false⟩,
               ⟨"poster.jpg", false⟩, ⟨"fanart.jpg", false⟩,
               ⟨"thumb.jpg", false⟩] []).2
          then [] ++ ["/s/c/T"] else []) := by
  exact insensitive_check_sensitive_glob
    [⟨"video.strm", false⟩, ⟨"video.nfo", false⟩, ⟨"poster.jpg", false⟩,
     ⟨"fanart.jpg", false⟩, ⟨"thumb.jpg", false⟩]
    ⟨"video.strm", false⟩ ⟨"video.nfo", false⟩ (fun _ => true)
    "/s/c/T/video.strm" "/s/c/T" [] []
    (by decide) (by decide) (by decide) (by decide) (by decide) (by decide)

/-- Claim C9, counterexample: not every mutating engine step runs under
the shared lock — `__handle_delete` removes cache entries and destination
entries without acquiring it. -/
theorem unlocked_delete_counterexample :
    engineSteps.all (fun s => !s.op.isMutating || s.underLock) = false := by
  decide

/-- Claim C9, amended: the source-file and destination-file handlers run
all of their steps inside the shared lock, but deletion propagation runs
all of its steps outside it. -/
theorem lock_discipline :
    (srcFileSteps ++ destFileSteps).all (fun s => s.underLock) = true ∧
      deleteSteps.all (fun s => !s.underLock) = true := by
  decide

/-- Claim C4: the link materializer is idempotent — running it again on
its own output changes neither the destination contents nor the success
flag — the prior destination contents survive as a prefix of the result
(no entry is overwritten or removed), and a name is present afterwards
exactly when it was already present or is the name of a regular
(non-directory) source file whose link call succeeds. -/
theorem forward_link_idempotent (ok : String → Bool) (src : List Entry)
    (dest : List String) :
    processForwardLink ok src (processForwardLink ok src dest).1 =
        processForwardLink ok src dest ∧
      dest <+: (processForwardLink ok src dest).1 ∧
      ∀ n, (n ∈ (processForwardLink ok src dest).1 ↔
        n ∈ dest ∨ ∃ e, e ∈ src ∧ e.isDir = false ∧ ok e.name = true ∧
          e.name = n) := by
  refine ⟨?_, ?_, ?_⟩
  · have h1 := pfl_fst_idem ok src dest
    have h2 := pfl_snd_idem ok src dest
    exact Prod.ext h1 h2
  · unfold processForwardLink
    exact pfl_fst_grows ok src dest true
  · intro n
    unfold processForwardLink
    exact pfl_mem ok src dest true n

/-- Claim C4, witness at a concrete folder with one failing link. -/
theorem forward_link_idempotent_witness :
    processForwardLink (fun m => !(m == "video.nfo"))
        [⟨"video.strm", false⟩, ⟨"video.nfo", false⟩, ⟨"sub", true⟩]
        (processForwardLink (fun m => !(m == "video.nfo"))
          [⟨"video.strm", false⟩, ⟨"video.nfo", false⟩, ⟨"sub", true⟩]
          ["old.jpg"]).1 =
      processForwardLink (fun m => !(m == "video.nfo"))
        [⟨"video.strm", false⟩, ⟨"video.nfo", false⟩, ⟨"sub", true⟩]
        ["old.jpg"] ∧
    ("sub" ∈ (processForwardLink (fun m => !(m == "video.nfo"))
        [⟨"video.strm", false⟩, ⟨"video.nfo", false⟩, ⟨"sub", true⟩]
        ["old.jpg"]).1 ↔
      "sub" ∈ ["old.jpg"] ∨ ∃ e, e ∈ [(⟨"video.strm", false⟩ : Entry),
        ⟨"video.nfo", false⟩, ⟨"sub", true⟩] ∧ e.isDir = false ∧
        (!(e.name == "video.nfo")) = true ∧ e.name = "sub") :=
  ⟨(forward_link_idempotent (fun m => !(m == "video.nfo"))
      [⟨"video.strm", false⟩, ⟨"video.nfo", false⟩, ⟨"sub", true⟩]
      ["old.jpg"]).1,
   (forward_link_idempotent (fun m => !(m == "video.nfo"))
      [⟨"video.strm", false⟩, ⟨"video.nfo", false⟩, ⟨"sub", true⟩]
      ["old.jpg"]).2.2 "sub"⟩

/-- Claim C5: the materializer reports success exactly when every regular
source file either links successfully or was already satisfied at the
destination; files whose links succeed stay in the destination even when
the overall run fails (no rollback); and `__handle_src_file` adds the
folder to the dedup cache exactly when the run fully succeeds. -/
theorem link_success_iff (ok : String → Bool) (src : List Entry)
    (dest : List String) (ep fp : String) (cache : List String) :
    ((processForwardLink ok src dest).2 = true ↔
        ∀ e, e ∈ src → e.isDir = false →
          (ok e.name = true ∨ e.name ∈ dest)) ∧
      (∀ e, e ∈ src → e.isDir = false → ok e.name = true →
        e.name ∈ (processForwardLink ok src dest).1) ∧
      (hasName cache fp = false → denylisted ep = false →
        srcReady src = true →
        (handleSrcFile ok ep fp true src dest cache).2 =
          (if (processForwardLink ok src dest).2 then cache ++ [fp]
           else cache)) := by
  refine ⟨?_, ?_, ?_⟩
  · unfold processForwardLink
    rw [pfl_flag]
    simp only [Bool.true_and, List.all_eq_true]
    constructor
    · intro h e he hdir
      have h2 := h e he
      rw [hdir] at h2
      simp only [Bool.false_or, Bool.or_eq_true] at h2
      rcases h2 with h2 | h2
      · exact Or.inl h2
      · exact Or.inr ((hasName_iff dest e.name).mp h2)
    · intro h e he
      cases hd2 : e.isDir with
      | true => simp
      | false =>
        rcases h e he hd2 with h2 | h2
        · simp [h2]
        · simp [(hasName_iff dest e.name).mpr h2]
  · intro e he hdir hok
    unfold processForwardLink
    rw [pfl_mem]
    exact Or.inr ⟨e, he, hdir, hok, rfl⟩
  · intro hc hd hr
    unfold handleSrcFile
    rw [hc, hd, hr]
    simp

/-- Claim C5, witness: one failing link keeps the folder out of the cache
while the successful links stay in place. -/
theorem link_success_iff_witness :
    "video.strm" ∈ (processForwardLink (fun m => !(m == "video.nfo"))
        [⟨"video.strm", false⟩, ⟨"video.nfo", false⟩,
         ⟨"poster.jpg", false⟩, ⟨"fanart.jpg", false⟩,
         ⟨"thumb.jpg", false⟩] []).1 ∧
      (handleSrcFile (fun m => !(m == "video.nfo")) "/s/c/T/video.strm"
          "/s/c/T" true
          [⟨"video.strm", false⟩, ⟨"video.nfo", false⟩,
           ⟨"poster.jpg", false⟩, ⟨"fanart.jpg", false⟩,
           ⟨"thumb.jpg", false⟩] [] []).2 =
        (if (processForwardLink (fun m => !(m == "video.nfo"))
            [⟨"video.strm", false⟩, ⟨"video.nfo", false⟩,
             ⟨"poster.jpg", false⟩, ⟨"fanart.jpg", false⟩,
             ⟨"thumb.jpg", false⟩] []).2
         then [] ++ ["/s/c/T"] else []) := by
  have h := link_success_iff (fun m => !(m == "video.nfo"))
    [⟨"video.strm", false⟩, ⟨"video.nfo", false⟩, ⟨"poster.jpg", false⟩,
     ⟨"fanart.jpg", false⟩, ⟨"thumb.jpg", false⟩] []
    "/s/c/T/video.strm" "/s/c/T" []
  exact ⟨h.2.1 ⟨"video.strm", false⟩ (by decide) rfl (by decide),
    h.2.2 (by decide) (by decide) (by decide)⟩

/-- Claim C6: a deletion event under a source root removes every
same-named entry from every directory bucket of the mapped destination
root, keeps entries with other names and non-directory children of the
root, and removes exactly the event path from the dedup cache by exact
string match; events whose root is not a configured source are no-ops. -/
theorem delete_propagation (ep : String) (tops : List TopEntry)
    (cache : List String) :
    (∀ t, t ∈ (handleDelete true ep true tops cache).1 → t.isDir = true →
        hasName t.children (pathName ep) = false) ∧
      (∀ t, t ∈ tops → t.isDir = false →
        t ∈ (handleDelete true ep true tops cache).1) ∧
      hasName (handleDelete true ep true tops cache).2 ep = false ∧
      (∀ c, c ∈ cache → c ≠ ep →
        c ∈ (handleDelete true ep true tops cache).2) ∧
      (∀ c, c ∈ (handleDelete true ep true tops cache).2 → c ∈ cache) ∧
      (∀ (ex : Bool), handleDelete false ep ex tops cache = (tops, cache)) := by
  have hfst : (handleDelete true ep true tops cache).1 =
      tops.map (fun t =>
        if t.isDir then
          { t with children := t.children.filter (fun c => !(c == pathName ep)) }
        else t) := by
    simp [handleDelete]
  have hsnd : (handleDelete true ep true tops cache).2 =
      cache.filter (fun c => !(c == ep)) := by
    simp [handleDelete]
  refine ⟨?_, ?_, ?_, ?_, ?_, ?_⟩
  · intro t ht hdir
    rw [hfst] at ht
    rcases List.mem_map.mp ht with ⟨t0, ht0, rfl⟩
    cases h0 : t0.isDir with
    | true =>
      simp only [h0, if_true]
      rw [Bool.eq_false_iff]
      intro hcontr
      have hmem := (hasName_iff _ _).mp hcontr
      have hf := (List.mem_filter.mp hmem).2
      simp at hf
    | false =>
      simp only [h0] at hdir
      simp at hdir
      exact absurd hdir (by simp [h0])
  · intro t ht h0
    rw [hfst]
    exact List.mem_map.mpr ⟨t, ht, by simp [h0]⟩
  · rw [hsnd, Bool.eq_false_iff]
    intro hcontr
    have hmem := (hasName_iff _ _).mp hcontr
    have hf := (List.mem_filter.mp hmem).2
    simp at hf
  · intro c hc hne
    rw [hsnd]
    exact List.mem_filter.mpr ⟨hc, by simp [hne]⟩
  · intro c hc
    rw [hsnd] at hc
    exact (List.mem_filter.mp hc).1
  · intro ex
    simp [handleDelete]

/-- Claim C6, witness: a two-bucket destination and a two-entry cache. -/
theorem delete_propagation_witness :
    hasName (handleDelete true "/s/col/T-1" true
        [⟨"T", true, ["T-1", "T-2"]⟩, ⟨"U", true, ["T-1"]⟩]
        ["/s/col/T-1", "/s/col/T-2"]).2 "/s/col/T-1" = false ∧
      "/s/col/T-2" ∈ (handleDelete true "/s/col/T-1" true
        [⟨"T", true, ["T-1", "T-2"]⟩, ⟨"U", true, ["T-1"]⟩]
        ["/s/col/T-1", "/s/col/T-2"]).2 := by
  have h := delete_propagation "/s/col/T-1"
    [⟨"T", true, ["T-1", "T-2"]⟩, ⟨"U", true, ["T-1"]⟩]
    ["/s/col/T-1", "/s/col/T-2"]
  exact ⟨h.2.2.1, h.2.2.2.1 "/s/col/T-2" (by decide) (by decide)⟩

theorem any_congr_mem {α : Type} (l : List α) (p q : α → Bool)
    (h : ∀ a, a ∈ l → p a = q a) : l.any p = l.any q := by
  induction l with
  | nil => rfl
  | cons a l ih =>
    rw [List.any_cons, List.any_cons, h a (List.mem_cons_self _ _),
      ih (fun b hb => h b (List.mem_cons_of_mem _ hb))]

theorem map_congr_mem {α β : Type} (l : List α) (f g : α → β)
    (h : ∀ a, a ∈ l → f a = g a) : l.map f = l.map g := by
  induction l with
  | nil => rfl
  | cons a l ih =>
    rw [List.map_cons, List.map_cons, h a (List.mem_cons_self _ _),
      ih (fun b hb => h b (List.mem_cons_of_mem _ hb))]

theorem addFileToTitle_any_name (a f q : String) (ts : List Title) :
    (addFileToTitle a f ts).any (fun t => t.name == q) =
      ts.any (fun t => t.name == q) := by
  unfold addFileToTitle
  rw [List.any_map]
  apply any_congr_mem
  intro t _
  by_cases h1 : t.name = a
  · by_cases h2 : hasName t.files f = true
    · simp [Function.comp, h1, h2]
    · simp only [Bool.not_eq_true] at h2
      simp [Function.comp, h1, h2]
  · simp [Function.comp, h1]

theorem addFileToTitle_idem (a f : String) (ts : List Title) :
    addFileToTitle a f (addFileToTitle a f ts) = addFileToTitle a f ts := by
  unfold addFileToTitle
  rw [List.map_map]
  apply map_congr_mem
  intro t _
  by_cases h1 : t.name = a
  · by_cases h2 : hasName t.files f = true
    · simp [Function.comp, h1, h2]
    · simp only [Bool.not_eq_true] at h2
      simp [Function.comp, h1, h2, hasName_append_single]
  · simp [Function.comp, h1]

theorem colMatches_update (a f : String) (c : Collection) :
    colMatches a (colUpdate a f c) = colMatches a c := by
  unfold colMatches colUpdate
  simp [addFileToTitle_any_name]

theorem colUpdate_idem (a f : String) (c : Collection) :
    colUpdate a f (colUpdate a f c) = colUpdate a f c := by
  unfold colUpdate
  simp [addFileToTitle_idem]

theorem linkFirstMatch_idem (a f : String) (cols : List Collection) :
    linkFirstMatch a f (linkFirstMatch a f cols) = linkFirstMatch a f cols := by
  induction cols with
  | nil => rfl
  | cons c rest ih =>
    by_cases hm : colMatches a c = true
    · rw [linkFirstMatch, if_pos hm, linkFirstMatch,
        if_pos (by rw [colMatches_update]; exact hm), colUpdate_idem]
    · rw [linkFirstMatch, if_neg hm, linkFirstMatch, if_neg hm, ih]

theorem linkFirstMatch_nomatch (a f : String) (cols : List Collection)
    (h : ∀ c, c ∈ cols → colMatches a c = false) :
    linkFirstMatch a f cols = cols := by
  induction cols with
  | nil => rfl
  | cons c rest ih =>
    rw [linkFirstMatch,
      if_neg (by simp [h c (List.mem_cons_self _ _)]),
      ih (fun c2 h2 => h c2 (List.mem_cons_of_mem _ h2))]

theorem linkFirstMatch_first (a f : String) (pre : List Collection)
    (c : Collection) (post : List Collection)
    (hpre : ∀ c2, c2 ∈ pre → colMatches a c2 = false)
    (hc : colMatches a c = true) :
    linkFirstMatch a f (pre ++ c :: post) =
      pre ++ colUpdate a f c :: post := by
  induction pre with
  | nil =>
    rw [List.nil_append, linkFirstMatch, if_pos hc, List.nil_append]
  | cons p ps ih =>
    rw [List.cons_append, linkFirstMatch,
      if_neg (by simp [hpre p (List.mem_cons_self _ _)]),
      ih (fun c2 h2 => hpre c2 (List.mem_cons_of_mem _ h2)), List.cons_append]

/-- Claim C7: the back-link reconciler is a no-op for paths that do not
end in `.json` (case-insensitively), for a missing or unmapped source
root, and when no directory collection contains a child named after the
event file's parent; it is idempotent, so a repeated identical event does
no further work; and it updates exactly the first matching collection —
conditionally adding the sidecar name — leaving everything before and
after it untouched. -/
theorem back_link_reconciler (p : String) (b : Bool) :
    (∀ cols, strEndsWith (lowerStr p) ".json" = false →
        handleDestFile p b cols = cols) ∧
      (∀ cols, handleDestFile p false cols = cols) ∧
      (∀ cols, (∀ c, c ∈ cols → colMatches (parentName p) c = false) →
        handleDestFile p b cols = cols) ∧
      (∀ cols, handleDestFile p b (handleDestFile p b cols) =
        handleDestFile p b cols) ∧
      (∀ (pre : List Collection) (c : Collection) (post : List Collection),
        strEndsWith (lowerStr p) ".json" = true →
        (∀ c2, c2 ∈ pre → colMatches (parentName p) c2 = false) →
        colMatches (parentName p) c = true →
        handleDestFile p true (pre ++ c :: post) =
          pre ++ colUpdate (parentName p) (pathName p) c :: post) := by
  refine ⟨?_, ?_, ?_, ?_, ?_⟩
  · intro cols hj
    simp [handleDestFile, hj]
  · intro cols
    simp [handleDestFile]
  · intro cols h
    by_cases hj : strEndsWith (lowerStr p) ".json" = true
    · cases b with
      | false => simp [handleDestFile]
      | true =>
        simp only [handleDestFile, hj, Bool.not_true, Bool.false_eq_true,
          if_false, ite_self]
        exact linkFirstMatch_nomatch _ _ cols h
    · simp only [Bool.not_eq_true] at hj
      simp [handleDestFile, hj]
  · intro cols
    by_cases hj : strEndsWith (lowerStr p) ".json" = true
    · cases b with
      | false => simp [handleDestFile]
      | true =>
        simp only [handleDestFile, hj, Bool.not_true, Bool.false_eq_true,
          if_false, ite_self]
        exact linkFirstMatch_idem _ _ cols
    · simp only [Bool.not_eq_true] at hj
      simp [handleDestFile, hj]
  · intro pre c post hj hpre hc
    simp only [handleDestFile, hj, Bool.not_true, Bool.false_eq_true,
      if_false, ite_self]
    exact linkFirstMatch_first _ _ pre c post hpre hc

/-- Claim C7, witness: the sidecar lands in the first matching collection
and the later matching collection stays untouched. -/
theorem back_link_reconciler_witness :
    handleDestFile "/dst/A/ABC-123/meta.json" true
        [⟨"colA", true, [⟨"XYZ", []⟩]⟩, ⟨"colB", true, [⟨"ABC-123", []⟩]⟩,
         ⟨"colC", true, [⟨"ABC-123", []⟩]⟩] =
      [⟨"colA", true, [⟨"XYZ", []⟩]⟩] ++
        colUpdate (parentName "/dst/A/ABC-123/meta.json")
          (pathName "/dst/A/ABC-123/meta.json")
          ⟨"colB", true, [⟨"ABC-123", []⟩]⟩ ::
          [⟨"colC", true, [⟨"ABC-123", []⟩]⟩] := by
  exact (back_link_reconciler "/dst/A/ABC-123/meta.json" true).2.2.2.2
    [⟨"colA", true, [⟨"XYZ", []⟩]⟩] ⟨"colB", true, [⟨"ABC-123", []⟩]⟩
    [⟨"colC", true, [⟨"ABC-123", []⟩]⟩]
    (by decide) (by decide) (by decide)

theorem mk_toList (s : String) : String.mk s.toList = s := rfl

theorem toList_append (s t : String) :
    (s ++ t).toList = s.toList ++ t.toList := rfl

theorem splitOnCharAux_append (c : Char) (xs : List Char) :
    ∀ (acc ys : List Char), c ∉ xs →
      splitOnCharAux c acc (xs ++ c :: ys) =
        (acc.reverse ++ xs) :: splitOnCharAux c [] ys := by
  induction xs with
  | nil =>
    intro acc ys _
    rw [List.nil_append, splitOnCharAux, if_pos rfl]
    simp
  | cons x xs ih =>
    intro acc ys h
    simp only [List.mem_cons, not_or] at h
    obtain ⟨h1, h2⟩ := h
    rw [List.cons_append, splitOnCharAux, if_neg (fun he => h1 he.symm),
      ih (x :: acc) ys h2]
    simp

/-- Claim C10: a mapping line containing several `:` separators is not
rejected — it is split on every `:` and only the first segment becomes the
source and only the second the destination; everything after the second
separator is silently discarded. -/
theorem mapping_line_extra_colons (a b r : String)
    (ha : ':' ∉ a.toList) (hb : ':' ∉ b.toList) :
    parseMappingLine (a ++ ":" ++ b ++ ":" ++ r) = some (a, b) := by
  have hdata : (a ++ ":" ++ b ++ ":" ++ r).toList =
      a.toList ++ ':' :: (b.toList ++ ':' :: r.toList) := by
    simp [toList_append, List.append_assoc]
  unfold parseMappingLine splitColon
  rw [hdata]
  have hg : (a.toList ++ ':' :: (b.toList ++ ':' :: r.toList)).any
      (fun x => x == ':') = true := by
    simp [List.any_append]
  rw [if_pos hg,
    splitOnCharAux_append ':' a.toList [] (b.toList ++ ':' :: r.toList) ha,
    splitOnCharAux_append ':' b.toList [] r.toList hb]
  simp [mk_toList]

/-- Claim C10, witness: a destination path that itself contains a colon is
truncated at the colon rather than rejected. -/
theorem mapping_line_extra_colons_witness :
    parseMappingLine ("/src" ++ ":" ++ "/dst" ++ ":" ++ "/extra") =
      some ("/src", "/dst") :=
  mapping_line_extra_colons "/src" "/dst" "/extra" (by decide) (by decide)
